import Mathlib

set_option maxHeartbeats 1000000

/-!
Verification of the particle-to-target assignment and motion engine of
`pixel-morph` (`src/app.js`), as a shallow embedding in Lean 4.

JavaScript numbers are modelled exactly: the target-pool builder
(`MorphApp.loadTargetImage`) only uses field arithmetic, so it is embedded
over `ℚ` (fully computable); the motion model and assignment engine use
`Math.sqrt`, so they are embedded over `ℝ` with `Real.sqrt`.
CSS color strings are modelled by the rgba values they parse to
(`Particle.parseRgb` / `MorphApp.parseRgbForPenalty` round-trip the rgba
components exactly for every color string this program constructs).
Randomness (`Math.random()` draws) is passed in as explicit parameters.
Object identity of particles is modelled by a numeric `id` field.
-/

namespace PixelMorph

/- ===================================================================
   Target Pool Builder (`MorphApp.loadTargetImage`, src/app.js 398-480)
   =================================================================== -/

/-- A target cell as pushed by `loadTargetImage`
(`{x, y, r, g, b, score, occupiedBy: null}`, src/app.js 456-461).
`occupiedBy` is the id of the occupying particle, `none` for JS `null`. -/
structure TCell where
  x : ℕ
  y : ℕ
  r : ℕ
  g : ℕ
  b : ℕ
  score : ℚ
  occupiedBy : Option ℕ
deriving DecidableEq

/-- Average of three consecutive raster bytes starting at `i`:
the brightness expression `(data[i] + data[i+1] + data[i+2]) / 3`
used for the center pixel and each of its four neighbours
(src/app.js 439, 443-446). -/
def brightnessAt (d : ℕ → ℕ) (i : ℕ) : ℚ :=
  ((d i : ℚ) + (d (i + 1) : ℚ) + (d (i + 2) : ℚ)) / 3

/-- The grid coordinates visited by `for (let v = 1; v < len - 1; v += step)`
(src/app.js 430-431), in visiting order (valid for `step ≥ 1`). -/
def gridCoords (len step : ℕ) : List ℕ :=
  (List.range len).filter (fun v => decide (1 ≤ v ∧ v < len - 1 ∧ (v - 1) % step = 0))

/-- The cell built for a sampled coordinate `(x, y)` (src/app.js 432-461):
`index = (y*width + x)*4`; contrast = |left−right| + |up−down| of neighbour
brightness averages; `centerY = height*0.4`; `yWeight = 1 − |y−centerY|/height`;
`score = contrast*yWeight + (brightness > 150 ? 50 : 0)`. -/
def cellAt (d : ℕ → ℕ) (w h x y : ℕ) : TCell :=
  let idx := (y * w + x) * 4
  let contrast :=
    |brightnessAt d (idx - 4) - brightnessAt d (idx + 4)| +
    |brightnessAt d (idx - w * 4) - brightnessAt d (idx + w * 4)|
  let brightness := brightnessAt d idx
  let centerY : ℚ := (h : ℚ) * 0.4
  let distY : ℚ := |(y : ℚ) - centerY| / (h : ℚ)
  let yWeight : ℚ := 1 - distY
  { x := x, y := y,
    r := d idx, g := d (idx + 1), b := d (idx + 2),
    score := contrast * yWeight + (if 150 < brightness then 50 else 0),
    occupiedBy := none }

/-- The raster scan of `loadTargetImage` (src/app.js 430-465): walk the grid,
keep coordinates whose alpha byte exceeds 20 (and whose brightness is ≥ 0,
a vacuous check kept from the source), and build a cell for each. -/
def scanCells (d : ℕ → ℕ) (w h step : ℕ) : List TCell :=
  (gridCoords h step).flatMap fun y =>
    (gridCoords w step).filterMap fun x =>
      if 20 < d ((y * w + x) * 4 + 3) then
        if (0 : ℚ) ≤ brightnessAt d ((y * w + x) * 4) then some (cellAt d w h x y)
        else none
      else none

/-- Descending-score order, the comparator `(a, b) => b.score - a.score`
of `this.targetPool.sort` (src/app.js 468). -/
def poolRel (c₁ c₂ : TCell) : Prop := c₂.score ≤ c₁.score

instance : DecidableRel poolRel := fun c₁ c₂ =>
  inferInstanceAs (Decidable (c₂.score ≤ c₁.score))

instance : IsTotal TCell poolRel := ⟨fun c₁ c₂ => le_total c₂.score c₁.score⟩

instance : IsTrans TCell poolRel := ⟨fun _ _ _ h₁ h₂ => le_trans h₂ h₁⟩

/-- The pool produced by a successful `loadTargetImage` run:
the scanned cells sorted descending by score (src/app.js 427-468). -/
def buildPool (d : ℕ → ℕ) (w h step : ℕ) : List TCell :=
  List.insertionSort poolRel (scanCells d w h step)

/-- Score formula written from the spec's words, for refinement comparison
with `cellAt`: sum of absolute horizontal and vertical local contrast
(differences of immediate left/right and up/down neighbour brightness
averages), multiplied by a vertical weight peaking at 40% of image height
and falling off toward top and bottom, plus a flat bonus for
high-brightness cells. -/
def scoreSpec (d : ℕ → ℕ) (w h x y : ℕ) : ℚ :=
  let i := (y * w + x) * 4
  let horiz := |brightnessAt d (i - 4) - brightnessAt d (i + 4)|
  let vert := |brightnessAt d (i - w * 4) - brightnessAt d (i + w * 4)|
  let weight := 1 - |(y : ℚ) - 0.4 * (h : ℚ)| / (h : ℚ)
  (horiz + vert) * weight + (if 150 < brightnessAt d i then 50 else 0)

/-- A decoded raster handed to the builder by `img.onload`
(src/app.js 424-426). -/
structure ImageData where
  data : ℕ → ℕ
  width : ℕ
  height : ℕ

/-- How the promise returned by `loadTargetImage` finishes. -/
inductive PromiseOutcome
  | resolved
  | rejected
deriving DecidableEq

/-- `loadTargetImage` as seen by its caller (src/app.js 398-480): on a
successful decode (`img.onload`) the pool is rebuilt from scratch and the
promise resolves; on a failed decode (`img.onerror`) the pool is left
untouched, the failure is only logged, and the promise still resolves
("Resolve anyway to prevent hanging", src/app.js 475). -/
def loadTargetImage (decoded : Option ImageData) (step : ℕ) (oldPool : List TCell) :
    List TCell × PromiseOutcome :=
  match decoded with
  | some img => (buildPool img.data img.width img.height step, .resolved)
  | none => (oldPool, .resolved)

/- ===================================================================
   Motion model (`Particle`, src/app.js 6-111)
   =================================================================== -/

noncomputable section

open Classical

/-- An rgba color value (what `parseRgb` / `parseRgbForPenalty` return,
src/app.js 24-42 and 512-529). -/
structure Rgba where
  r : ℝ
  g : ℝ
  b : ℝ
  a : ℝ

/-- A particle (src/app.js 6-22 and 104-111).  `id` stands for JS object
identity; `rgb` is the parsed color; `morphed` is the settled flag;
`isReplacement`/`particleToReplace`/`targetSlot` are the
`ReplacementParticle` fields (`particleToReplace` holds the incumbent's id,
`targetSlot` the claimed pool index). -/
structure Particle where
  id : ℕ
  x : ℝ
  y : ℝ
  targetX : ℝ
  targetY : ℝ
  vx : ℝ
  vy : ℝ
  rgb : Rgba
  delay : ℝ
  morphed : Bool
  ease : ℝ
  friction : ℝ
  isReplacement : Bool
  particleToReplace : Option ℕ
  targetSlot : Option ℕ

/-- The `Particle` constructor (src/app.js 7-22): position at `(x, y)`,
velocity `(Math.random() - 0.5) * 5` per axis, `ease = 0.02 + r * 0.05`,
`friction = 0.85 + r * 0.1`, not yet morphed.  `rvx rvy re rf` are the four
`Math.random()` draws. -/
def mkParticle (pid : ℕ) (x y tx ty : ℝ) (rgb : Rgba) (delay : ℝ)
    (rvx rvy re rf : ℝ) : Particle :=
  { id := pid, x := x, y := y, targetX := tx, targetY := ty,
    vx := (rvx - 0.5) * 5, vy := (rvy - 0.5) * 5,
    rgb := rgb, delay := delay, morphed := false,
    ease := 0.02 + re * 0.05, friction := 0.85 + rf * 0.1,
    isReplacement := false, particleToReplace := none, targetSlot := none }

/-- Distance to target, `Math.sqrt(dx*dx + dy*dy)` (src/app.js 49-51). -/
def distToTarget (p : Particle) : ℝ :=
  Real.sqrt ((p.targetX - p.x) ^ 2 + (p.targetY - p.y) ^ 2)

/-- The organic noise added to one velocity axis (src/app.js 57-63):
`(Math.random() - 0.5) * 2 * Math.min(1, distance / 100)` when
`distance > 2`, nothing otherwise.  `r` is the `Math.random()` draw. -/
def noiseTerm (distance r : ℝ) : ℝ :=
  if 2 < distance then (r - 0.5) * 2 * min 1 (distance / 100) else 0

/-- `Particle.update` (src/app.js 44-80): return unchanged when already
morphed or before the arrival delay; otherwise accelerate toward the
target by `ease`, add noise, apply friction, integrate position, and snap
(pin to target, zero velocity, set `morphed`) when the distance measured
at the start of the tick is below 0.5.  `rx ry` are the two
`Math.random()` draws of this tick. -/
def update (p : Particle) (currentFrame morphStartFrame : ℕ) (rx ry : ℝ) : Particle :=
  if p.morphed then p
  else if (currentFrame : ℝ) < (morphStartFrame : ℝ) + p.delay then p
  else
    let dx := p.targetX - p.x
    let dy := p.targetY - p.y
    let distance := distToTarget p
    let vx1 := (p.vx + dx * p.ease + noiseTerm distance rx) * p.friction
    let vy1 := (p.vy + dy * p.ease + noiseTerm distance ry) * p.friction
    if distance < 0.5 then
      { p with x := p.targetX, y := p.targetY, vx := 0, vy := 0, morphed := true }
    else
      { p with x := p.x + vx1, y := p.y + vy1, vx := vx1, vy := vy1 }

/-- `Particle.updateTarget` (src/app.js 83-95): move the particle to
`(px, py)`, aim it at the new target with the new color and delay, clear
the morphed flag and re-randomize the velocity (`rvx rvy` are the two
`Math.random()` draws). -/
def updateTarget (p : Particle) (px py : ℝ) (newColor : Rgba) (delay ntx nty : ℝ)
    (rvx rvy : ℝ) : Particle :=
  { p with
    x := px, y := py, targetX := ntx, targetY := nty,
    rgb := newColor, delay := delay, morphed := false,
    vx := (rvx - 0.5) * 5, vy := (rvy - 0.5) * 5 }

/- ===================================================================
   Assignment engine (`MorphApp.draw`, src/app.js 588-707)
   =================================================================== -/

/-- A target-pool cell as the assignment engine sees it (the builder's
cells, with `occupiedBy` holding the occupying particle and
`pendingReplacement` the incumbent scheduled for removal,
src/app.js 456-461, 689-690).  Coordinates and colors are real-valued
here because the engine does real arithmetic on them. -/
structure Cell where
  x : ℝ
  y : ℝ
  r : ℝ
  g : ℝ
  b : ℝ
  score : ℝ
  occupiedBy : Option Particle
  pendingReplacement : Option Particle

/-- Out-of-range placeholder for `List.getD` (never produced by the pool
builder; only used where the source would read `undefined`). -/
def dCell : Cell :=
  { x := 0, y := 0, r := 0, g := 0, b := 0, score := 0,
    occupiedBy := none, pendingReplacement := none }

/-- `MorphApp.colorDistance` (src/app.js 507-509). -/
def colorDistance (c₁ c₂ : Rgba) : ℝ :=
  Real.sqrt ((c₁.r - c₂.r) ^ 2 + (c₁.g - c₂.g) ^ 2 + (c₁.b - c₂.b) ^ 2)

/-- The cell's native color as an rgba value (`{r: t.r, g: t.g, b: t.b}`,
alpha 1 as parsed from an `rgb(...)` string). -/
def nativeRgba (t : Cell) : Rgba := ⟨t.r, t.g, t.b, 1⟩

/-- The candidate penalty of one sampled cell (src/app.js 636-645):
Euclidean distance from the stroke point, plus color distance scaled by
the desired color's alpha, plus 1000 if the cell is occupied, plus the
priority bonus `100 / (1 + score)`. -/
def penalty (t : Cell) (px py : ℝ) (rgb : Rgba) : ℝ :=
  Real.sqrt ((t.x - px) ^ 2 + (t.y - py) ^ 2)
  + colorDistance rgb (nativeRgba t) * rgb.a
  + (if t.occupiedBy.isSome then 1000 else 0)
  + 100 / (1 + t.score)

/-- Penalty formula written from the spec's words, for refinement
comparison with `penalty`: Euclidean distance from the input point to the
cell, plus the color distance between desired color and the cell's native
color scaled by the desired color's alpha, plus a large constant penalty
(1000) if the cell is already occupied, plus a priority bonus inversely
proportional to the cell's feature score (100 / (1 + score)). -/
def penaltySpec (t : Cell) (px py : ℝ) (rgb : Rgba) : ℝ :=
  Real.sqrt ((t.x - px) ^ 2 + (t.y - py) ^ 2)
  + Real.sqrt ((rgb.r - t.r) ^ 2 + (rgb.g - t.g) ^ 2 + (rgb.b - t.b) ^ 2) * rgb.a
  + (if t.occupiedBy.isSome then 1000 else 0)
  + 100 / (1 + t.score)

/-- One step of the 40-draw minimum search (src/app.js 632-651): the
accumulator is `none` before the first draw (`minPenalty = Infinity`,
`bestTarget = null`), and `some (k, m)` once a best index `k` with penalty
`m` has been found; a draw replaces it only on strictly smaller penalty. -/
def bestStep (f : ℕ → ℝ) (acc : Option (ℕ × ℝ)) (i : ℕ) : Option (ℕ × ℝ) :=
  match acc with
  | none => some (i, f i)
  | some (k, m) => if f i < m then some (i, f i) else some (k, m)

/-- The sampling loop of `MorphApp.draw` (src/app.js 628-651), with the 40
random pool indices passed in as `idxs`: returns the pool index of the
minimum-penalty sampled cell. -/
def selectBest (pool : List Cell) (px py : ℝ) (rgb : Rgba) (idxs : List ℕ) : Option ℕ :=
  (idxs.foldl (bestStep fun i => penalty (pool.getD i dCell) px py rgb) none).map Prod.fst

/-- One stroke point of a draw call, with all its random draws: the
jittered point, the parsed desired color, the 40 sampled pool indices, the
`favorColors` roll, the arrival delay, the constructor randomness, and the
id for a particle created at this point. -/
structure StrokeInput where
  px : ℝ
  py : ℝ
  rgb : Rgba
  idxs : List ℕ
  favRoll : ℝ
  delay : ℝ
  rvx : ℝ
  rvy : ℝ
  re : ℝ
  rf : ℝ
  pid : ℕ

/-- What one stroke point did: nothing, claimed a free cell `k`, or
created a challenger for occupied cell `k`. -/
inductive Outcome
  | noAction
  | claimed (k : ℕ)
  | replaced (k : ℕ)
deriving DecidableEq

/-- The engine's mutable state: the target pool and the active particles. -/
structure DrawState where
  pool : List Cell
  particles : List Particle

/-- The "Favor Original Colors" substitution (src/app.js 669-672, 694-697):
with the flag on and a roll below 0.5, use the cell's own native color. -/
def effColor (fav : Bool) (roll : ℝ) (t : Cell) (rgb : Rgba) : Rgba :=
  if fav ∧ roll < 0.5 then nativeRgba t else rgb

/-- The particle created when a free cell `t` is claimed
(src/app.js 699, `new Particle(px, py, bestTarget.x, bestTarget.y,
currentColor, delay)` with the favor-colors substitution applied). -/
def claimedParticle (fav : Bool) (inp : StrokeInput) (t : Cell) : Particle :=
  mkParticle inp.pid inp.px inp.py t.x t.y (effColor fav inp.favRoll t inp.rgb)
    inp.delay inp.rvx inp.rvy inp.re inp.rf

/-- The challenger created for an occupied cell `t` with incumbent `q` at
pool index `k` (src/app.js 680-687, `new ReplacementParticle(...)`). -/
def challengerFor (fav : Bool) (inp : StrokeInput) (t : Cell) (q : Particle) (k : ℕ) :
    Particle :=
  { mkParticle inp.pid inp.px inp.py t.x t.y (effColor fav inp.favRoll t inp.rgb)
      inp.delay inp.rvx inp.rvy inp.re inp.rf with
    isReplacement := true, particleToReplace := some q.id, targetSlot := some k }

/-- One iteration of the per-point loop in `MorphApp.draw`
(src/app.js 606-702): skip when the pool is empty or no best target was
found; when the winner is occupied, skip a still-morphing occupant,
otherwise create a challenger exactly when the candidate color beats the
occupant's color distance by the 10% margin; when the winner is free,
claim it with a fresh particle. -/
def drawStep (fav : Bool) (inp : StrokeInput) (s : DrawState) : DrawState × Outcome :=
  if s.pool.isEmpty then (s, .noAction)
  else
    match selectBest s.pool inp.px inp.py inp.rgb inp.idxs with
    | none => (s, .noAction)
    | some k =>
      let t := s.pool.getD k dCell
      match t.occupiedBy with
      | some q =>
        if q.morphed = false then (s, .noAction)
        else
          if colorDistance (effColor fav inp.favRoll t inp.rgb) (nativeRgba t) <
              colorDistance q.rgb (nativeRgba t) * 0.9 then
            ({ pool := s.pool.set k
                  { t with
                    occupiedBy := some (challengerFor fav inp t q k),
                    pendingReplacement := some q },
               particles := s.particles ++ [challengerFor fav inp t q k] }, .replaced k)
          else (s, .noAction)
      | none =>
        ({ pool := s.pool.set k
              { t with occupiedBy := some (claimedParticle fav inp t) },
           particles := s.particles ++ [claimedParticle fav inp t] }, .claimed k)

/-- A whole `MorphApp.draw` call (the `for (let i = 0; i < count; i++)`
loop, src/app.js 600-704), also returning the list of cell indices claimed
by the particles created during the call, in creation order. -/
def drawCall (fav : Bool) : List StrokeInput → DrawState → DrawState × List ℕ
  | [], s => (s, [])
  | inp :: rest, s =>
    let step := drawStep fav inp s
    let restRes := drawCall fav rest step.1
    (restRes.1,
      match step.2 with
      | .noAction => restRes.2
      | .claimed k => k :: restRes.2
      | .replaced k => k :: restRes.2)

/- ===================================================================
   Animation driver (`MorphApp.animate`, src/app.js 745-794)
   =================================================================== -/

/-- The transition check of `MorphApp.animate` (src/app.js 766-770): after
this tick's update, did this particle just finish morphing while being a
replacement with a pending incumbent? -/
def challengerArrived (f start : ℕ) (rx ry : ℝ) (p : Particle) : Bool :=
  let p' := update p f start rx ry
  !p.morphed && p'.morphed && p'.isReplacement && p'.particleToReplace.isSome

/-- The incumbent id this particle schedules for removal this tick
(what `animate` adds to `particlesToRemove`, src/app.js 770-772). -/
def transitionTarget (f start : ℕ) (rx ry : ℝ) (p : Particle) : Option ℕ :=
  if challengerArrived f start rx ry p then
    (update p f start rx ry).particleToReplace
  else none

/-- One particle's processing inside the `forEach` of `animate`
(src/app.js 765-777): update, then clear the pending-replacement link on a
settle transition. -/
def tickParticle (f start : ℕ) (rx ry : ℝ) (p : Particle) : Particle :=
  let p' := update p f start rx ry
  if challengerArrived f start rx ry p then
    { p' with particleToReplace := none, isReplacement := false }
  else p'

/-- All incumbent ids scheduled for removal this tick
(`particlesToRemove`, src/app.js 762-777).  `rnd` gives each particle its
two `Math.random()` draws for this tick, keyed by particle id. -/
def removalTargets (f start : ℕ) (rnd : ℕ → ℝ × ℝ) (ps : List Particle) : List ℕ :=
  ps.filterMap fun p => transitionTarget f start (rnd p.id).1 (rnd p.id).2 p

/-- The particle phase of one `animate` tick (src/app.js 761-783): when
morphing, update every particle (capturing settle transitions) and then
remove the replaced incumbents by a set-difference filter; when not
morphing, leave the collection untouched. -/
def animateStep (morphing : Bool) (f start : ℕ) (rnd : ℕ → ℝ × ℝ)
    (ps : List Particle) : List Particle :=
  if morphing then
    let toRemove := removalTargets f start rnd ps
    (ps.map fun p => tickParticle f start (rnd p.id).1 (rnd p.id).2 p).filter
      fun q => decide (q.id ∉ toRemove)
  else ps

/-- A cell claimed during the current draw call: occupied by a particle
that has not yet morphed (the invariant behind the no-double-claim
property). -/
def FreshlyClaimed (s : DrawState) (k : ℕ) : Prop :=
  ∃ p, (s.pool.getD k dCell).occupiedBy = some p ∧ p.morphed = false

/- ===================================================================
   Concrete instances used by the witness and counterexample theorems
   =================================================================== -/

/-- A particle that has already settled on its target. -/
def settledParticle : Particle :=
  { id := 0, x := 5, y := 6, targetX := 5, targetY := 6, vx := 0, vy := 0,
    rgb := ⟨0, 0, 0, 1⟩, delay := 0, morphed := true, ease := 0.05,
    friction := 0.9, isReplacement := false, particleToReplace := none,
    targetSlot := none }

/-- An unsettled particle sitting exactly on its target (pre-tick distance
0, so the next update snaps it). -/
def nearParticle : Particle :=
  { id := 0, x := 5, y := 6, targetX := 5, targetY := 6, vx := 0, vy := 0,
    rgb := ⟨0, 0, 0, 1⟩, delay := 0, morphed := false, ease := 0.05,
    friction := 0.9, isReplacement := false, particleToReplace := none,
    targetSlot := none }

/-- An unsettled particle at pre-tick distance 1 from its target whose
tick ends strictly inside the 0.5 snap radius (x moves to 0.585). -/
def slowParticle : Particle :=
  { id := 0, x := 0, y := 0, targetX := 1, targetY := 0, vx := 0.6, vy := 0,
    rgb := ⟨0, 0, 0, 1⟩, delay := 0, morphed := false, ease := 0.05,
    friction := 0.9, isReplacement := false, particleToReplace := none,
    targetSlot := none }

/-- A settled incumbent, id 1, whose color does not match its cell. -/
def settledIncumbent : Particle :=
  { id := 1, x := 0, y := 0, targetX := 0, targetY := 0, vx := 0, vy := 0,
    rgb := ⟨3, 4, 0, 1⟩, delay := 0, morphed := true, ease := 0.05,
    friction := 0.9, isReplacement := false, particleToReplace := none,
    targetSlot := some 0 }

/-- A still-moving incumbent, id 1, with a poor color match. -/
def movingIncumbent : Particle :=
  { id := 1, x := 40, y := 0, targetX := 0, targetY := 0, vx := 0, vy := 0,
    rgb := ⟨100, 0, 0, 1⟩, delay := 0, morphed := false, ease := 0.05,
    friction := 0.9, isReplacement := false, particleToReplace := none,
    targetSlot := some 0 }

/-- A challenger, id 2, that replaces incumbent 1 and sits exactly on its
target, so the next morphing tick settles it. -/
def arrivingChallenger : Particle :=
  { id := 2, x := 7, y := 8, targetX := 7, targetY := 8, vx := 0, vy := 0,
    rgb := ⟨0, 0, 0, 1⟩, delay := 0, morphed := false, ease := 0.05,
    friction := 0.9, isReplacement := true, particleToReplace := some 1,
    targetSlot := some 0 }

/-- A free black cell at the origin. -/
def freeCell : Cell :=
  { x := 0, y := 0, r := 0, g := 0, b := 0, score := 0,
    occupiedBy := none, pendingReplacement := none }

/-- The black origin cell occupied by the settled incumbent. -/
def occupiedCell : Cell :=
  { freeCell with occupiedBy := some settledIncumbent }

/-- The black origin cell occupied by the still-moving incumbent. -/
def blockedCell : Cell :=
  { freeCell with occupiedBy := some movingIncumbent }

/-- A stroke point at the origin proposing exact black (a perfect match
for the cells above), with the 40 draws all hitting pool index 0 and the
favor-colors roll above 0.5. -/
def blackStroke : StrokeInput :=
  { px := 0, py := 0, rgb := ⟨0, 0, 0, 1⟩, idxs := List.replicate 40 0,
    favRoll := 1, delay := 0, rvx := 0.5, rvy := 0.5, re := 0.5, rf := 0.5,
    pid := 2 }

/-- The same stroke point with a different particle id, used as the second
point of a two-point draw call. -/
def blackStroke2 : StrokeInput :=
  { blackStroke with pid := 3 }

end

/- ===================================================================
   Helper lemmas
   =================================================================== -/

theorem brightnessAt_nonneg (d : ℕ → ℕ) (i : ℕ) : (0 : ℚ) ≤ brightnessAt d i := by
  unfold brightnessAt
  positivity

theorem mem_gridCoords {len step v : ℕ} :
    v ∈ gridCoords len step ↔ 1 ≤ v ∧ v < len - 1 ∧ (v - 1) % step = 0 := by
  simp only [gridCoords, List.mem_filter, List.mem_range, decide_eq_true_eq]
  constructor
  · rintro ⟨-, hv⟩
    exact hv
  · intro hv
    exact ⟨by omega, hv⟩

theorem mem_scanCells {d : ℕ → ℕ} {w h step : ℕ} {c : TCell} :
    c ∈ scanCells d w h step ↔
      ∃ x y,
        (1 ≤ x ∧ x < w - 1 ∧ (x - 1) % step = 0) ∧
        (1 ≤ y ∧ y < h - 1 ∧ (y - 1) % step = 0) ∧
        20 < d ((y * w + x) * 4 + 3) ∧ c = cellAt d w h x y := by
  simp only [scanCells, List.mem_flatMap, List.mem_filterMap, mem_gridCoords]
  constructor
  · rintro ⟨y, hy, x, hx, hsome⟩
    by_cases ha : 20 < d ((y * w + x) * 4 + 3)
    · rw [if_pos ha, if_pos (brightnessAt_nonneg d _)] at hsome
      exact ⟨x, y, hx, hy, ha, (Option.some_injective _ hsome).symm⟩
    · rw [if_neg ha] at hsome
      cases hsome
  · rintro ⟨x, y, hx, hy, ha, hc⟩
    refine ⟨y, hy, x, hx, ?_⟩
    rw [if_pos ha, if_pos (brightnessAt_nonneg d _), hc]

theorem mem_buildPool {d : ℕ → ℕ} {w h step : ℕ} {c : TCell} :
    c ∈ buildPool d w h step ↔ c ∈ scanCells d w h step := by
  simp [buildPool]

theorem cellAt_occupiedBy (d : ℕ → ℕ) (w h x y : ℕ) :
    (cellAt d w h x y).occupiedBy = none := rfl

theorem cellAt_score (d : ℕ → ℕ) (w h x y : ℕ) :
    (cellAt d w h x y).score = scoreSpec d w h x y := by
  simp only [cellAt, scoreSpec]
  ring_nf

/- ===================================================================
   Claim theorems: Target Pool Builder
   =================================================================== -/

/-- Claim C8: the pool builder walks the raster on a grid with the given
stride skipping a one-cell border; every sampled coordinate with alpha
above the visibility threshold (> 20) yields a cell whose feature score is
the local-contrast sum times the vertical weight peaking at 40% of image
height, plus a flat high-brightness bonus; the collection is sorted
descending by score, fully replaces the previous pool, and every cell
starts unoccupied. -/
theorem pool_builder_correct (d : ℕ → ℕ) (w h step : ℕ) (_hstep : 1 ≤ step) :
    List.Sorted poolRel (buildPool d w h step) ∧
    (∀ c ∈ buildPool d w h step, c.occupiedBy = none) ∧
    (∀ c, c ∈ buildPool d w h step ↔
      ∃ x y,
        (1 ≤ x ∧ x < w - 1 ∧ (x - 1) % step = 0) ∧
        (1 ≤ y ∧ y < h - 1 ∧ (y - 1) % step = 0) ∧
        20 < d ((y * w + x) * 4 + 3) ∧ c = cellAt d w h x y) ∧
    (∀ x y, (cellAt d w h x y).score = scoreSpec d w h x y) ∧
    (∀ oldPool, loadTargetImage (some ⟨d, w, h⟩) step oldPool =
      (buildPool d w h step, PromiseOutcome.resolved)) := by
  refine ⟨List.sorted_insertionSort poolRel _, ?_, ?_, cellAt_score d w h, fun _ => rfl⟩
  · intro c hc
    obtain ⟨x, y, -, -, -, hc⟩ := mem_scanCells.mp (mem_buildPool.mp hc)
    rw [hc]
    rfl
  · intro c
    rw [mem_buildPool, mem_scanCells]

theorem pool_builder_correct_witness :
    1 ≤ 1 ∧ List.Sorted poolRel (buildPool (fun _ => 255) 6 6 2) :=
  ⟨by decide, (pool_builder_correct (fun _ => 255) 6 6 2 (by decide)).1⟩

/-- Claim C9 (corrected): if decoding the source image fails, the previous
pool is left fully intact and the animation continues (the promise
resolves), but the failure is only logged to the console: the promise
resolves exactly as on success, so no failure is reported to the caller. -/
theorem decode_failure_preserves_pool (step : ℕ) (oldPool : List TCell) :
    loadTargetImage none step oldPool = (oldPool, PromiseOutcome.resolved) := rfl

/-- Claim C9, counterexample to the claim as stated: on a decode failure
the promise resolves (it is never rejected), so the builder does not
report the failure to its caller. -/
theorem decode_failure_not_reported_cex :
    (loadTargetImage none 4 []).1 = [] ∧
    (loadTargetImage none 4 []).2 = PromiseOutcome.resolved ∧
    (loadTargetImage none 4 []).2 ≠ PromiseOutcome.rejected := by
  refine ⟨rfl, rfl, ?_⟩
  decide

/- ===================================================================
   Motion model lemmas
   =================================================================== -/

theorem sqrt_val {a b : ℝ} (hb : 0 ≤ b) (h : b ^ 2 = a) : Real.sqrt a = b := by
  rw [← h, Real.sqrt_sq hb]

theorem update_eq_cases (p : Particle) (f start : ℕ) (rx ry : ℝ) :
    (p.morphed = true ∧ update p f start rx ry = p) ∨
    (p.morphed = false ∧ ((f : ℝ) < (start : ℝ) + p.delay) ∧
      update p f start rx ry = p) ∨
    (p.morphed = false ∧ ¬((f : ℝ) < (start : ℝ) + p.delay) ∧
      distToTarget p < 0.5 ∧
      update p f start rx ry =
        { p with x := p.targetX, y := p.targetY, vx := 0, vy := 0, morphed := true }) ∨
    (p.morphed = false ∧ ¬((f : ℝ) < (start : ℝ) + p.delay) ∧
      ¬(distToTarget p < 0.5) ∧
      update p f start rx ry =
        { p with
          x := p.x + (p.vx + (p.targetX - p.x) * p.ease +
            noiseTerm (distToTarget p) rx) * p.friction,
          y := p.y + (p.vy + (p.targetY - p.y) * p.ease +
            noiseTerm (distToTarget p) ry) * p.friction,
          vx := (p.vx + (p.targetX - p.x) * p.ease +
            noiseTerm (distToTarget p) rx) * p.friction,
          vy := (p.vy + (p.targetY - p.y) * p.ease +
            noiseTerm (distToTarget p) ry) * p.friction }) := by
  by_cases h0 : p.morphed = true
  · exact Or.inl ⟨h0, by simp [update, h0]⟩
  · have h0' : p.morphed = false := by simpa using h0
    by_cases h1 : (f : ℝ) < (start : ℝ) + p.delay
    · exact Or.inr (Or.inl ⟨h0', h1, by simp [update, h0', h1]⟩)
    · by_cases h2 : distToTarget p < 0.5
      · exact Or.inr (Or.inr (Or.inl ⟨h0', h1, h2, by simp [update, h0', h1, h2]⟩))
      · exact Or.inr (Or.inr (Or.inr ⟨h0', h1, h2, by simp [update, h0', h1, h2]⟩))

/- ===================================================================
   Claim theorems: Motion model
   =================================================================== -/

/-- Claim C3: once a particle's settled flag is true its position equals
its target and its velocity is zero, and the whole state is preserved by
every subsequent per-tick update; an update never clears the flag, which
reverts to false only via `updateTarget`, and `updateTarget` also resets
the velocity from fresh randomization. -/
theorem settled_pinned_invariant (p : Particle) (f start : ℕ) (rx ry : ℝ) :
    (p.morphed = true → update p f start rx ry = p) ∧
    (p.morphed = false → (update p f start rx ry).morphed = true →
      (update p f start rx ry).x = (update p f start rx ry).targetX ∧
      (update p f start rx ry).y = (update p f start rx ry).targetY ∧
      (update p f start rx ry).vx = 0 ∧ (update p f start rx ry).vy = 0) ∧
    ((update p f start rx ry).morphed = false → p.morphed = false) ∧
    (∀ (px py : ℝ) (c : Rgba) (dl ntx nty rvx rvy : ℝ),
      (updateTarget p px py c dl ntx nty rvx rvy).morphed = false ∧
      (updateTarget p px py c dl ntx nty rvx rvy).vx = (rvx - 0.5) * 5 ∧
      (updateTarget p px py c dl ntx nty rvx rvy).vy = (rvy - 0.5) * 5) := by
  have hTarget : ∀ (px py : ℝ) (c : Rgba) (dl ntx nty rvx rvy : ℝ),
      (updateTarget p px py c dl ntx nty rvx rvy).morphed = false ∧
      (updateTarget p px py c dl ntx nty rvx rvy).vx = (rvx - 0.5) * 5 ∧
      (updateTarget p px py c dl ntx nty rvx rvy).vy = (rvy - 0.5) * 5 :=
    fun _ _ _ _ _ _ _ _ => ⟨rfl, rfl, rfl⟩
  rcases update_eq_cases p f start rx ry with
    ⟨hm, heq⟩ | ⟨hm, hdel, heq⟩ | ⟨hm, hdel, hs, heq⟩ | ⟨hm, hdel, hs, heq⟩
  · refine ⟨fun _ => heq, fun h0 _ => absurd h0 (by simp [hm]), fun h3 => ?_, hTarget⟩
    rw [heq] at h3
    exact h3
  · refine ⟨fun h1 => absurd h1 (by simp [hm]), fun _ hm' => ?_, fun h3 => ?_, hTarget⟩
    · rw [heq] at hm'
      exact absurd hm' (by simp [hm])
    · exact hm
  · refine ⟨fun h1 => absurd h1 (by simp [hm]), fun _ _ => ?_, fun _ => hm, hTarget⟩
    rw [heq]
    exact ⟨rfl, rfl, rfl, rfl⟩
  · refine ⟨fun h1 => absurd h1 (by simp [hm]), fun _ hm' => ?_, fun _ => hm, hTarget⟩
    rw [heq] at hm'
    exact absurd hm' (by simp [hm])

theorem settled_pinned_invariant_witness :
    update settledParticle 3 0 0.1 0.2 = settledParticle :=
  (settled_pinned_invariant settledParticle 3 0 0.1 0.2).1 rfl

/-- Claim C4 (corrected): the snap test of `Particle.update` uses the
distance to target measured at the start of the tick, before velocity and
position are advanced: whenever that pre-update distance is below 0.5
units the particle is pinned exactly to its target, its velocity is
zeroed, and it is marked settled. -/
theorem snap_pre_distance (p : Particle) (f start : ℕ) (rx ry : ℝ)
    (hm : p.morphed = false) (hd : ¬((f : ℝ) < (start : ℝ) + p.delay))
    (hs : distToTarget p < 0.5) :
    (update p f start rx ry).x = p.targetX ∧
    (update p f start rx ry).y = p.targetY ∧
    (update p f start rx ry).vx = 0 ∧
    (update p f start rx ry).vy = 0 ∧
    (update p f start rx ry).morphed = true := by
  simp [update, hm, hd, hs]

theorem snap_pre_distance_witness :
    (update nearParticle 3 0 0.1 0.2).morphed = true ∧
    (update nearParticle 3 0 0.1 0.2).x = nearParticle.targetX := by
  have h := snap_pre_distance nearParticle 3 0 0.1 0.2 rfl
    (by norm_num [nearParticle])
    (by norm_num [distToTarget, nearParticle, Real.sqrt_zero])
  exact ⟨h.2.2.2.2, h.1⟩

/-- Claim C4, counterexample to the claim as stated: a tick of
`slowParticle` ends at distance 0.415 < 0.5 from its target (its
pre-update distance was 1), yet the particle is neither pinned to the
target nor marked settled by that tick. -/
theorem snap_pre_distance_cex :
    distToTarget (update slowParticle 1 0 0.5 0.5) < 0.5 ∧
    (update slowParticle 1 0 0.5 0.5).morphed = false ∧
    (update slowParticle 1 0 0.5 0.5).x ≠ (update slowParticle 1 0 0.5 0.5).targetX ∧
    0.5 ≤ distToTarget slowParticle := by
  have hpre : distToTarget slowParticle = 1 := by
    simp only [distToTarget, slowParticle]
    norm_num [Real.sqrt_one]
  have hupd : update slowParticle 1 0 0.5 0.5 =
      { slowParticle with x := 0.585, y := 0, vx := 0.585, vy := 0 } := by
    simp only [update, hpre]
    norm_num [slowParticle, noiseTerm]
  have hpost : Real.sqrt 0.172225 = 0.415 := sqrt_val (by norm_num) (by norm_num)
  refine ⟨?_, ?_, ?_, by rw [hpre]; norm_num⟩
  · rw [hupd]
    simp only [distToTarget, slowParticle]
    rw [show ((1 : ℝ) - 0.585) ^ 2 + ((0 : ℝ) - 0) ^ 2 = 0.172225 by norm_num, hpost]
    norm_num
  · rw [hupd]
    rfl
  · rw [hupd]
    norm_num [slowParticle]

/-- Claim C10: the per-tick noise injected into each velocity axis is a
value in [-1, 1] scaled by min(1, distance / 100), it vanishes whenever
the distance to target is below 2, and in a regular (non-snapping,
post-delay) tick the new velocity is exactly the eased velocity plus that
noise term, times friction. -/
theorem noise_model (d r : ℝ) (h0 : 0 ≤ r) (h1 : r < 1) :
    (∃ c, -1 ≤ c ∧ c ≤ 1 ∧ noiseTerm d r = c * min 1 (d / 100)) ∧
    (d < 2 → noiseTerm d r = 0) ∧
    (∀ (p : Particle) (f start : ℕ),
      p.morphed = false → ¬((f : ℝ) < (start : ℝ) + p.delay) →
      ¬(distToTarget p < 0.5) →
      (update p f start r r).vx =
        (p.vx + (p.targetX - p.x) * p.ease + noiseTerm (distToTarget p) r) * p.friction ∧
      (update p f start r r).vy =
        (p.vy + (p.targetY - p.y) * p.ease + noiseTerm (distToTarget p) r) * p.friction) := by
  refine ⟨?_, ?_, ?_⟩
  · by_cases hd : 2 < d
    · refine ⟨(r - 0.5) * 2, by linarith, by linarith, ?_⟩
      rw [noiseTerm, if_pos hd]
    · exact ⟨0, by norm_num, by norm_num, by rw [noiseTerm, if_neg hd, zero_mul]⟩
  · intro hd
    rw [noiseTerm, if_neg (by linarith)]
  · intro p f start hm hdel hs
    constructor <;> simp [update, hm, hdel, hs]

theorem noise_model_witness : noiseTerm 1 0.5 = 0 :=
  (noise_model 1 0.5 (by norm_num) (by norm_num)).2.1 (by norm_num)

/- ===================================================================
   Assignment engine lemmas
   =================================================================== -/

theorem getD_set_self {α : Type} (l : List α) (k : ℕ) (a d : α) (h : k < l.length) :
    (l.set k a).getD k d = a := by
  simp [List.getD_eq_getElem?_getD, List.getElem?_set_self, h]

theorem getD_set_ne {α : Type} (l : List α) (j k : ℕ) (a d : α) (h : j ≠ k) :
    (l.set k a).getD j d = l.getD j d := by
  simp [List.getD_eq_getElem?_getD, List.getElem?_set_ne (Ne.symm h)]

theorem bestStep_none (f : ℕ → ℝ) (i : ℕ) : bestStep f none i = some (i, f i) := rfl

theorem bestStep_some (f : ℕ → ℝ) (k : ℕ) (m : ℝ) (i : ℕ) :
    bestStep f (some (k, m)) i = if f i < m then some (i, f i) else some (k, m) := rfl

theorem bestStep_foldl_spec (f : ℕ → ℝ) :
    ∀ (idxs : List ℕ) (k₀ : ℕ),
      ∃ k, List.foldl (bestStep f) (some (k₀, f k₀)) idxs = some (k, f k) ∧
        (k = k₀ ∨ k ∈ idxs) ∧ f k ≤ f k₀ ∧ ∀ i ∈ idxs, f k ≤ f i := by
  intro idxs
  induction idxs with
  | nil => exact fun k₀ => ⟨k₀, rfl, Or.inl rfl, le_refl _, by simp⟩
  | cons i rest ih =>
    intro k₀
    by_cases h : f i < f k₀
    · obtain ⟨k, hfold, hmem, hle, hall⟩ := ih i
      refine ⟨k, ?_, ?_, le_trans hle (le_of_lt h), ?_⟩
      · rw [List.foldl_cons, bestStep_some, if_pos h]
        exact hfold
      · rcases hmem with rfl | hmm
        · exact Or.inr (List.mem_cons_self k rest)
        · exact Or.inr (List.mem_cons_of_mem _ hmm)
      · intro j hj
        rcases List.mem_cons.mp hj with rfl | hj'
        · exact hle
        · exact hall j hj'
    · obtain ⟨k, hfold, hmem, hle, hall⟩ := ih k₀
      refine ⟨k, ?_, ?_, hle, ?_⟩
      · rw [List.foldl_cons, bestStep_some, if_neg h]
        exact hfold
      · rcases hmem with rfl | hmm
        · exact Or.inl rfl
        · exact Or.inr (List.mem_cons_of_mem _ hmm)
      · intro j hj
        rcases List.mem_cons.mp hj with rfl | hj'
        · exact le_trans hle (not_lt.mp h)
        · exact hall j hj'

theorem selectBest_spec (pool : List Cell) (px py : ℝ) (rgb : Rgba) (idxs : List ℕ)
    (hne : idxs ≠ []) :
    ∃ k, selectBest pool px py rgb idxs = some k ∧ k ∈ idxs ∧
      ∀ i ∈ idxs,
        penalty (pool.getD k dCell) px py rgb ≤ penalty (pool.getD i dCell) px py rgb := by
  obtain ⟨i, rest, rfl⟩ := List.exists_cons_of_ne_nil hne
  obtain ⟨k, hfold, hmem, hle, hall⟩ :=
    bestStep_foldl_spec (fun j => penalty (pool.getD j dCell) px py rgb) rest i
  refine ⟨k, ?_, ?_, ?_⟩
  · simp only [selectBest, List.foldl_cons, bestStep_none]
    rw [hfold]
    rfl
  · rcases hmem with rfl | hmm
    · exact List.mem_cons_self k rest
    · exact List.mem_cons_of_mem _ hmm
  · intro j hj
    rcases List.mem_cons.mp hj with rfl | hj'
    · exact hle
    · exact hall j hj'

theorem foldl_bestStep_const (f : ℕ → ℝ) (i : ℕ) :
    ∀ n, List.foldl (bestStep f) (some (i, f i)) (List.replicate n i) = some (i, f i) := by
  intro n
  induction n with
  | zero => rfl
  | succ m ih =>
    rw [List.replicate_succ, List.foldl_cons, bestStep_some, if_neg (lt_irrefl _)]
    exact ih

theorem selectBest_replicate (pool : List Cell) (px py : ℝ) (rgb : Rgba) (n i : ℕ)
    (hn : n ≠ 0) : selectBest pool px py rgb (List.replicate n i) = some i := by
  obtain ⟨m, rfl⟩ := Nat.exists_eq_succ_of_ne_zero hn
  simp only [selectBest, List.replicate_succ, List.foldl_cons, bestStep_none]
  rw [foldl_bestStep_const]
  rfl

theorem drawStep_empty_eq {fav : Bool} {inp : StrokeInput} {s : DrawState}
    (hE : s.pool.isEmpty = true) : drawStep fav inp s = (s, .noAction) := by
  unfold drawStep
  rw [if_pos hE]

theorem drawStep_noSel_eq {fav : Bool} {inp : StrokeInput} {s : DrawState}
    (hE : s.pool.isEmpty = false)
    (hsel : selectBest s.pool inp.px inp.py inp.rgb inp.idxs = none) :
    drawStep fav inp s = (s, .noAction) := by
  unfold drawStep
  rw [if_neg (show ¬s.pool.isEmpty = true by simp [hE]), hsel]

theorem drawStep_free_eq {fav : Bool} {inp : StrokeInput} {s : DrawState} {k : ℕ}
    (hE : s.pool.isEmpty = false)
    (hsel : selectBest s.pool inp.px inp.py inp.rgb inp.idxs = some k)
    (hocc : (s.pool.getD k dCell).occupiedBy = none) :
    drawStep fav inp s =
      ({ pool := s.pool.set k
            { s.pool.getD k dCell with
              occupiedBy := some (claimedParticle fav inp (s.pool.getD k dCell)) },
         particles := s.particles ++ [claimedParticle fav inp (s.pool.getD k dCell)] },
       .claimed k) := by
  unfold drawStep
  rw [if_neg (show ¬s.pool.isEmpty = true by simp [hE]), hsel]
  dsimp only
  rw [hocc]

theorem drawStep_unmorphed_eq {fav : Bool} {inp : StrokeInput} {s : DrawState} {k : ℕ}
    {q : Particle}
    (hsel : selectBest s.pool inp.px inp.py inp.rgb inp.idxs = some k)
    (hocc : (s.pool.getD k dCell).occupiedBy = some q)
    (hq : q.morphed = false) :
    drawStep fav inp s = (s, .noAction) := by
  by_cases hE : s.pool.isEmpty = true
  · exact drawStep_empty_eq hE
  · have hE' : s.pool.isEmpty = false := by simpa using hE
    unfold drawStep
    rw [if_neg (show ¬s.pool.isEmpty = true by simp [hE']), hsel]
    dsimp only
    rw [hocc]
    dsimp only
    rw [if_pos hq]

theorem drawStep_replace_eq {fav : Bool} {inp : StrokeInput} {s : DrawState} {k : ℕ}
    {q : Particle}
    (hE : s.pool.isEmpty = false)
    (hsel : selectBest s.pool inp.px inp.py inp.rgb inp.idxs = some k)
    (hocc : (s.pool.getD k dCell).occupiedBy = some q)
    (hq : q.morphed = true)
    (hcd : colorDistance (effColor fav inp.favRoll (s.pool.getD k dCell) inp.rgb)
        (nativeRgba (s.pool.getD k dCell)) <
      colorDistance q.rgb (nativeRgba (s.pool.getD k dCell)) * 0.9) :
    drawStep fav inp s =
      ({ pool := s.pool.set k
            { s.pool.getD k dCell with
              occupiedBy := some (challengerFor fav inp (s.pool.getD k dCell) q k),
              pendingReplacement := some q },
         particles := s.particles ++ [challengerFor fav inp (s.pool.getD k dCell) q k] },
       .replaced k) := by
  unfold drawStep
  rw [if_neg (show ¬s.pool.isEmpty = true by simp [hE]), hsel]
  dsimp only
  rw [hocc]
  dsimp only
  rw [if_neg (show ¬q.morphed = false by simp [hq]), if_pos hcd]

theorem drawStep_noMargin_eq {fav : Bool} {inp : StrokeInput} {s : DrawState} {k : ℕ}
    {q : Particle}
    (hE : s.pool.isEmpty = false)
    (hsel : selectBest s.pool inp.px inp.py inp.rgb inp.idxs = some k)
    (hocc : (s.pool.getD k dCell).occupiedBy = some q)
    (hq : q.morphed = true)
    (hcd : ¬(colorDistance (effColor fav inp.favRoll (s.pool.getD k dCell) inp.rgb)
        (nativeRgba (s.pool.getD k dCell)) <
      colorDistance q.rgb (nativeRgba (s.pool.getD k dCell)) * 0.9)) :
    drawStep fav inp s = (s, .noAction) := by
  unfold drawStep
  rw [if_neg (show ¬s.pool.isEmpty = true by simp [hE]), hsel]
  dsimp only
  rw [hocc]
  dsimp only
  rw [if_neg (show ¬q.morphed = false by simp [hq]), if_neg hcd]

/-- Exhaustive case analysis of `drawStep`: either it does nothing and
leaves the state unchanged, or it claims a free winner, or it creates a
challenger for an occupied winner whose settled occupant is beaten by the
10% margin. -/
theorem drawStep_cases (fav : Bool) (inp : StrokeInput) (s : DrawState) :
    (drawStep fav inp s = (s, .noAction)) ∨
    (∃ k, selectBest s.pool inp.px inp.py inp.rgb inp.idxs = some k ∧
      s.pool.isEmpty = false ∧
      (((s.pool.getD k dCell).occupiedBy = none ∧
        drawStep fav inp s =
          ({ pool := s.pool.set k
                { s.pool.getD k dCell with
                  occupiedBy := some (claimedParticle fav inp (s.pool.getD k dCell)) },
             particles := s.particles ++
               [claimedParticle fav inp (s.pool.getD k dCell)] }, .claimed k)) ∨
      (∃ q, (s.pool.getD k dCell).occupiedBy = some q ∧ q.morphed = true ∧
        drawStep fav inp s =
          ({ pool := s.pool.set k
                { s.pool.getD k dCell with
                  occupiedBy := some (challengerFor fav inp (s.pool.getD k dCell) q k),
                  pendingReplacement := some q },
             particles := s.particles ++
               [challengerFor fav inp (s.pool.getD k dCell) q k] }, .replaced k)))) := by
  by_cases hE : s.pool.isEmpty = true
  · exact Or.inl (drawStep_empty_eq hE)
  · have hE' : s.pool.isEmpty = false := by simpa using hE
    cases hsel : selectBest s.pool inp.px inp.py inp.rgb inp.idxs with
    | none => exact Or.inl (drawStep_noSel_eq hE' hsel)
    | some k =>
      cases hocc : (s.pool.getD k dCell).occupiedBy with
      | none =>
        exact Or.inr ⟨k, rfl, hE', Or.inl ⟨hocc, drawStep_free_eq hE' hsel hocc⟩⟩
      | some q =>
        by_cases hq : q.morphed = false
        · exact Or.inl (drawStep_unmorphed_eq hsel hocc hq)
        · have hq' : q.morphed = true := by simpa using hq
          by_cases hcd : colorDistance (effColor fav inp.favRoll (s.pool.getD k dCell) inp.rgb)
              (nativeRgba (s.pool.getD k dCell)) <
              colorDistance q.rgb (nativeRgba (s.pool.getD k dCell)) * 0.9
          · exact Or.inr ⟨k, rfl, hE',
              Or.inr ⟨q, hocc, hq', drawStep_replace_eq hE' hsel hocc hq' hcd⟩⟩
          · exact Or.inl (drawStep_noMargin_eq hE' hsel hocc hq' hcd)

/- ===================================================================
   Claim theorems: Assignment engine
   =================================================================== -/

/-- Claim C1: with a non-empty pool and its 40 sampled indices, the
engine's penalty is exactly Euclidean distance + alpha-scaled color
distance + 1000 occupancy penalty + 100/(1+score), and the winning index
is one of the sampled ones with minimal penalty; any cell acted upon
(claimed or replaced) by the draw step is exactly that winner. -/
theorem assignment_min_penalty (fav : Bool) (inp : StrokeInput) (s : DrawState)
    (hlen : inp.idxs.length = 40) (_hpool : s.pool ≠ []) :
    (∀ t, penalty t inp.px inp.py inp.rgb = penaltySpec t inp.px inp.py inp.rgb) ∧
    ∃ k, selectBest s.pool inp.px inp.py inp.rgb inp.idxs = some k ∧
      k ∈ inp.idxs ∧
      (∀ i ∈ inp.idxs,
        penalty (s.pool.getD k dCell) inp.px inp.py inp.rgb ≤
          penalty (s.pool.getD i dCell) inp.px inp.py inp.rgb) ∧
      (∀ k', (drawStep fav inp s).2 = .claimed k' ∨ (drawStep fav inp s).2 = .replaced k' →
        k' = k) := by
  have hne : inp.idxs ≠ [] := by
    intro h
    rw [h] at hlen
    simp at hlen
  obtain ⟨k, hsel, hmem, hmin⟩ := selectBest_spec s.pool inp.px inp.py inp.rgb inp.idxs hne
  refine ⟨fun t => rfl, k, hsel, hmem, hmin, ?_⟩
  intro k' hk'
  rcases drawStep_cases fav inp s with hna | ⟨k₂, hsel₂, hE₂, hbr⟩
  · rcases hk' with h | h <;> rw [hna] at h <;> simp at h
  · have hk₂ : k₂ = k := Option.some_injective _ (hsel₂.symm.trans hsel)
    subst hk₂
    rcases hbr with ⟨hocc, heq⟩ | ⟨q, hocc, hq, heq⟩
    · rcases hk' with h | h <;> rw [heq] at h
      · simpa using h.symm
      · simp at h
    · rcases hk' with h | h <;> rw [heq] at h
      · simp at h
      · simpa using h.symm

theorem assignment_min_penalty_witness :
    ∃ k, selectBest [freeCell] blackStroke.px blackStroke.py blackStroke.rgb
        blackStroke.idxs = some k ∧
      k ∈ blackStroke.idxs ∧
      (∀ i ∈ blackStroke.idxs,
        penalty ([freeCell].getD k dCell) blackStroke.px blackStroke.py blackStroke.rgb ≤
          penalty ([freeCell].getD i dCell) blackStroke.px blackStroke.py blackStroke.rgb) ∧
      (∀ k', (drawStep false blackStroke ⟨[freeCell], []⟩).2 = .claimed k' ∨
          (drawStep false blackStroke ⟨[freeCell], []⟩).2 = .replaced k' → k' = k) :=
  (assignment_min_penalty false blackStroke ⟨[freeCell], []⟩
    (by rw [show blackStroke.idxs = List.replicate 40 0 from rfl]; simp)
    (by simp)).2

/-- Claim C2 (corrected): when the winning cell's occupant has settled, a
takeover is created exactly when the candidate color's distance to the
cell's native color is strictly below 0.9 times the occupant's distance
(so two zero distances never replace); the takeover pushes a challenger
linked to the incumbent.  (When the occupant is still morphing, no
takeover happens even if the margin is met; see the counterexample.) -/
theorem takeover_margin (fav : Bool) (inp : StrokeInput) (s : DrawState) (k : ℕ)
    (q : Particle)
    (hsel : selectBest s.pool inp.px inp.py inp.rgb inp.idxs = some k)
    (hocc : (s.pool.getD k dCell).occupiedBy = some q)
    (hq : q.morphed = true) :
    ((drawStep fav inp s).2 = .replaced k ↔
      colorDistance (effColor fav inp.favRoll (s.pool.getD k dCell) inp.rgb)
          (nativeRgba (s.pool.getD k dCell)) <
        colorDistance q.rgb (nativeRgba (s.pool.getD k dCell)) * 0.9) ∧
    ((drawStep fav inp s).2 = .replaced k →
      (drawStep fav inp s).1.particles =
        s.particles ++ [challengerFor fav inp (s.pool.getD k dCell) q k] ∧
      (challengerFor fav inp (s.pool.getD k dCell) q k).particleToReplace = some q.id) ∧
    (colorDistance (effColor fav inp.favRoll (s.pool.getD k dCell) inp.rgb)
          (nativeRgba (s.pool.getD k dCell)) = 0 ∧
        colorDistance q.rgb (nativeRgba (s.pool.getD k dCell)) = 0 →
      drawStep fav inp s = (s, .noAction)) := by
  have hnil : s.pool ≠ [] := by
    intro h
    rw [h] at hocc
    simp [List.getD_nil, dCell] at hocc
  have hE : s.pool.isEmpty = false := by simpa [List.isEmpty_iff] using hnil
  by_cases hcd : colorDistance (effColor fav inp.favRoll (s.pool.getD k dCell) inp.rgb)
      (nativeRgba (s.pool.getD k dCell)) <
      colorDistance q.rgb (nativeRgba (s.pool.getD k dCell)) * 0.9
  · have heq := drawStep_replace_eq hE hsel hocc hq hcd
    refine ⟨⟨fun _ => hcd, fun _ => by rw [heq]⟩, fun _ => by rw [heq]; exact ⟨rfl, rfl⟩, ?_⟩
    rintro ⟨h1, h2⟩
    rw [h1, h2] at hcd
    norm_num at hcd
  · have heq := drawStep_noMargin_eq hE hsel hocc hq hcd
    refine ⟨⟨?_, fun h => absurd h hcd⟩, ?_, fun _ => heq⟩
    · intro h
      rw [heq] at h
      simp at h
    · intro h
      rw [heq] at h
      simp at h

theorem takeover_margin_witness :
    (drawStep false blackStroke ⟨[occupiedCell], [settledIncumbent]⟩).2 =
        Outcome.replaced 0 ↔
      colorDistance (effColor false blackStroke.favRoll
          ([occupiedCell].getD 0 dCell) blackStroke.rgb)
          (nativeRgba ([occupiedCell].getD 0 dCell)) <
        colorDistance settledIncumbent.rgb (nativeRgba ([occupiedCell].getD 0 dCell)) * 0.9 :=
  (takeover_margin false blackStroke ⟨[occupiedCell], [settledIncumbent]⟩ 0 settledIncumbent
    (by rw [show blackStroke.idxs = List.replicate 40 0 from rfl]
        exact selectBest_replicate _ _ _ _ 40 0 (by norm_num))
    rfl rfl).1

/-- Claim C2, counterexample to the claim as stated: the winning cell is
occupied and the candidate color (distance 0) beats 0.9 times the
occupant's distance (90), yet no takeover is created, because the
occupant has not settled. -/
theorem takeover_margin_cex :
    ((([blockedCell] : List Cell).getD 0 dCell).occupiedBy = some movingIncumbent) ∧
    movingIncumbent.morphed = false ∧
    colorDistance blackStroke.rgb (nativeRgba blockedCell) <
      colorDistance movingIncumbent.rgb (nativeRgba blockedCell) * 0.9 ∧
    drawStep false blackStroke ⟨[blockedCell], [movingIncumbent]⟩ =
      (⟨[blockedCell], [movingIncumbent]⟩, Outcome.noAction) := by
  have h1 : colorDistance blackStroke.rgb (nativeRgba blockedCell) = 0 := by
    simp only [colorDistance, nativeRgba, blackStroke, blockedCell, freeCell]
    norm_num [Real.sqrt_zero]
  have h2 : colorDistance movingIncumbent.rgb (nativeRgba blockedCell) = 100 := by
    simp only [colorDistance, nativeRgba, movingIncumbent, blockedCell, freeCell]
    rw [show ((100 : ℝ) - 0) ^ 2 + ((0 : ℝ) - 0) ^ 2 + ((0 : ℝ) - 0) ^ 2 = 100 ^ 2 by
      norm_num]
    exact Real.sqrt_sq (by norm_num)
  refine ⟨rfl, rfl, ?_, ?_⟩
  · rw [h1, h2]
    norm_num
  · exact @drawStep_unmorphed_eq false blackStroke ⟨[blockedCell], [movingIncumbent]⟩ 0
      movingIncumbent
      (by rw [show blackStroke.idxs = List.replicate 40 0 from rfl]
          exact selectBest_replicate _ _ _ _ 40 0 (by norm_num))
      rfl rfl

/-- Claim C7: when the winning cell is occupied by a particle that has not
settled, the assignment performs no action for that point: no particle is
created, the pool (and the occupant) is unchanged, and no replacement is
proposed. -/
theorem still_moving_incumbent_skipped (fav : Bool) (inp : StrokeInput) (s : DrawState)
    (k : ℕ) (q : Particle)
    (hsel : selectBest s.pool inp.px inp.py inp.rgb inp.idxs = some k)
    (hocc : (s.pool.getD k dCell).occupiedBy = some q)
    (hq : q.morphed = false) :
    drawStep fav inp s = (s, .noAction) :=
  drawStep_unmorphed_eq hsel hocc hq

theorem still_moving_incumbent_skipped_witness :
    drawStep true blackStroke ⟨[blockedCell], [movingIncumbent]⟩ =
      (⟨[blockedCell], [movingIncumbent]⟩, Outcome.noAction) :=
  still_moving_incumbent_skipped true blackStroke ⟨[blockedCell], [movingIncumbent]⟩ 0
    movingIncumbent
    (by rw [show blackStroke.idxs = List.replicate 40 0 from rfl]
        exact selectBest_replicate _ _ _ _ 40 0 (by norm_num))
    rfl rfl

/- ===================================================================
   Animation driver lemmas
   =================================================================== -/

theorem update_preserves (p : Particle) (f start : ℕ) (rx ry : ℝ) :
    (update p f start rx ry).id = p.id ∧
    (update p f start rx ry).isReplacement = p.isReplacement ∧
    (update p f start rx ry).particleToReplace = p.particleToReplace := by
  rcases update_eq_cases p f start rx ry with
    ⟨-, heq⟩ | ⟨-, -, heq⟩ | ⟨-, -, -, heq⟩ | ⟨-, -, -, heq⟩ <;>
    rw [heq] <;> exact ⟨rfl, rfl, rfl⟩

theorem tickParticle_id (f start : ℕ) (rx ry : ℝ) (p : Particle) :
    (tickParticle f start rx ry p).id = p.id := by
  simp only [tickParticle]
  split_ifs with h
  · exact (update_preserves p f start rx ry).1
  · exact (update_preserves p f start rx ry).1

/- ===================================================================
   Claim theorems: Replacement Coordinator / Animation driver
   =================================================================== -/

/-- Claim C5: on a morphing tick, a particle id `j` present before the
tick is absent afterwards exactly when some challenger transitions from
unsettled to settled on this very tick with `j` as its pending
incumbent (so an incumbent is removed on the challenger's settle tick and
never earlier); the transitioning challenger's pending-replacement link is
cleared by that same tick; on a non-morphing tick nothing is removed. -/
theorem incumbent_removed_on_settle_tick (f start : ℕ) (rnd : ℕ → ℝ × ℝ)
    (ps : List Particle) (j : ℕ) :
    (((∃ p ∈ ps, p.id = j) ∧ ¬∃ q ∈ animateStep true f start rnd ps, q.id = j) ↔
      ((∃ p ∈ ps, p.id = j) ∧
        ∃ p ∈ ps, transitionTarget f start (rnd p.id).1 (rnd p.id).2 p = some j)) ∧
    (∀ p ∈ ps, transitionTarget f start (rnd p.id).1 (rnd p.id).2 p = some j →
      (tickParticle f start (rnd p.id).1 (rnd p.id).2 p).particleToReplace = none ∧
      (tickParticle f start (rnd p.id).1 (rnd p.id).2 p).isReplacement = false ∧
      (tickParticle f start (rnd p.id).1 (rnd p.id).2 p).morphed = true) ∧
    animateStep false f start rnd ps = ps := by
  have hres : ∀ q, q ∈ animateStep true f start rnd ps ↔
      (∃ p ∈ ps, tickParticle f start (rnd p.id).1 (rnd p.id).2 p = q) ∧
        q.id ∉ removalTargets f start rnd ps := by
    intro q
    simp only [animateStep, eq_self_iff_true, if_true, List.mem_filter, List.mem_map,
      decide_eq_true_eq]
  have hmemid : (∃ q ∈ animateStep true f start rnd ps, q.id = j) ↔
      ((∃ p ∈ ps, p.id = j) ∧ j ∉ removalTargets f start rnd ps) := by
    constructor
    · rintro ⟨q, hq, rfl⟩
      obtain ⟨⟨p, hp, hpq⟩, hnr⟩ := (hres q).mp hq
      have hid : p.id = q.id := by
        rw [← hpq]
        exact (tickParticle_id _ _ _ _ p).symm
      exact ⟨⟨p, hp, hid⟩, hnr⟩
    · rintro ⟨⟨p, hp, hpj⟩, hnr⟩
      refine ⟨tickParticle f start (rnd p.id).1 (rnd p.id).2 p,
        (hres _).mpr ⟨⟨p, hp, rfl⟩, ?_⟩, ?_⟩
      · rw [tickParticle_id, hpj]
        exact hnr
      · rw [tickParticle_id, hpj]
  have hrt : j ∈ removalTargets f start rnd ps ↔
      ∃ p ∈ ps, transitionTarget f start (rnd p.id).1 (rnd p.id).2 p = some j := by
    simp [removalTargets, List.mem_filterMap]
  refine ⟨?_, ?_, rfl⟩
  · constructor
    · rintro ⟨hA, hnot⟩
      refine ⟨hA, ?_⟩
      rw [← hrt]
      by_contra hnr
      exact hnot (hmemid.mpr ⟨hA, hnr⟩)
    · rintro ⟨hA, hR⟩
      exact ⟨hA, fun hq => (hmemid.mp hq).2 (hrt.mpr hR)⟩
  · intro p hp htr
    have harr : challengerArrived f start (rnd p.id).1 (rnd p.id).2 p = true := by
      by_contra h
      unfold transitionTarget at htr
      rw [if_neg h] at htr
      cases htr
    have hm : (update p f start (rnd p.id).1 (rnd p.id).2).morphed = true := by
      have h2 := harr
      simp only [challengerArrived, Bool.and_eq_true] at h2
      exact h2.1.1.2
    refine ⟨?_, ?_, ?_⟩
    · simp only [tickParticle]
      rw [if_pos harr]
    · simp only [tickParticle]
      rw [if_pos harr]
    · simp only [tickParticle]
      rw [if_pos harr]
      exact hm

theorem incumbent_removed_on_settle_tick_witness :
    (tickParticle 5 0 0.5 0.5 arrivingChallenger).particleToReplace = none ∧
    (tickParticle 5 0 0.5 0.5 arrivingChallenger).isReplacement = false ∧
    (tickParticle 5 0 0.5 0.5 arrivingChallenger).morphed = true := by
  have hd : distToTarget arrivingChallenger < 0.5 := by
    simp only [distToTarget, arrivingChallenger]
    rw [show ((7 : ℝ) - 7) ^ 2 + ((8 : ℝ) - 8) ^ 2 = 0 by norm_num, Real.sqrt_zero]
    norm_num
  have hupd : update arrivingChallenger 5 0 0.5 0.5 =
      { arrivingChallenger with x := 7, y := 8, vx := 0, vy := 0, morphed := true } := by
    rcases update_eq_cases arrivingChallenger 5 0 0.5 0.5 with
      ⟨hm, -⟩ | ⟨-, hdel, -⟩ | ⟨-, -, -, heq⟩ | ⟨-, -, hs, -⟩
    · cases hm
    · exact absurd hdel (by norm_num [arrivingChallenger])
    · rw [heq]
      rfl
    · exact absurd hd hs
  have hP := update_preserves arrivingChallenger 5 0 0.5 0.5
  have hm' : (update arrivingChallenger 5 0 0.5 0.5).morphed = true := by rw [hupd]
  have harr : challengerArrived 5 0 0.5 0.5 arrivingChallenger = true := by
    simp only [challengerArrived, hm', hP.2.1, hP.2.2]
    rfl
  have htr : transitionTarget 5 0 0.5 0.5 arrivingChallenger = some 1 := by
    unfold transitionTarget
    rw [if_pos harr, hP.2.2]
    rfl
  exact (incumbent_removed_on_settle_tick 5 0 (fun _ => (0.5, 0.5))
    [arrivingChallenger] 1).2.1 arrivingChallenger (by simp) htr

/- ===================================================================
   Occupancy lemmas for a whole draw call
   =================================================================== -/

theorem selectBest_mem {pool : List Cell} {px py : ℝ} {rgb : Rgba} {idxs : List ℕ}
    {k : ℕ} (hsel : selectBest pool px py rgb idxs = some k) : k ∈ idxs := by
  cases idxs with
  | nil => simp [selectBest] at hsel
  | cons i rest =>
    obtain ⟨k', hsel', hmem', -⟩ := selectBest_spec pool px py rgb (i :: rest) (by simp)
    obtain rfl := Option.some_injective _ (hsel'.symm.trans hsel)
    exact hmem'

theorem drawStep_pool_length (fav : Bool) (inp : StrokeInput) (s : DrawState) :
    ((drawStep fav inp s).1).pool.length = s.pool.length := by
  rcases drawStep_cases fav inp s with hna | ⟨k, -, -, hbr⟩
  · rw [hna]
  · rcases hbr with ⟨-, heq⟩ | ⟨q, -, -, heq⟩ <;> rw [heq] <;> simp

theorem drawStep_claims {fav : Bool} {inp : StrokeInput} {s : DrawState} {k : ℕ}
    (h : (drawStep fav inp s).2 = .claimed k ∨ (drawStep fav inp s).2 = .replaced k) :
    selectBest s.pool inp.px inp.py inp.rgb inp.idxs = some k ∧
    (k < s.pool.length → FreshlyClaimed (drawStep fav inp s).1 k) ∧
    (∀ j, j ≠ k → ((drawStep fav inp s).1).pool.getD j dCell = s.pool.getD j dCell) ∧
    ¬FreshlyClaimed s k := by
  rcases drawStep_cases fav inp s with hna | ⟨k₂, hsel₂, hE₂, hbr⟩
  · rcases h with h | h <;> rw [hna] at h <;> simp at h
  · rcases hbr with ⟨hocc, heq⟩ | ⟨q, hocc, hq, heq⟩
    · have hkk : k₂ = k := by
        rcases h with h | h <;> rw [heq] at h <;> simpa using h
      subst hkk
      refine ⟨hsel₂, ?_, ?_, ?_⟩
      · intro hlt
        refine ⟨claimedParticle fav inp (s.pool.getD k₂ dCell), ?_, rfl⟩
        rw [heq]
        dsimp only
        rw [getD_set_self _ _ _ _ hlt]
      · intro j hj
        rw [heq]
        dsimp only
        exact getD_set_ne _ _ _ _ _ hj
      · rintro ⟨p, hp, -⟩
        rw [hocc] at hp
        cases hp
    · have hkk : k₂ = k := by
        rcases h with h | h <;> rw [heq] at h <;> simpa using h
      subst hkk
      refine ⟨hsel₂, ?_, ?_, ?_⟩
      · intro hlt
        refine ⟨challengerFor fav inp (s.pool.getD k₂ dCell) q k₂, ?_, rfl⟩
        rw [heq]
        dsimp only
        rw [getD_set_self _ _ _ _ hlt]
      · intro j hj
        rw [heq]
        dsimp only
        exact getD_set_ne _ _ _ _ _ hj
      · rintro ⟨p, hp, hpm⟩
        rw [hocc] at hp
        obtain rfl := Option.some_injective _ hp
        simp [hq] at hpm

theorem drawCall_invariant (fav : Bool) :
    ∀ (inps : List StrokeInput) (s : DrawState) (ks₀ : List ℕ),
      (∀ inp ∈ inps, ∀ i ∈ inp.idxs, i < s.pool.length) →
      (∀ k ∈ ks₀, FreshlyClaimed s k) →
      ks₀.Nodup →
      (∀ k ∈ ks₀ ++ (drawCall fav inps s).2, FreshlyClaimed (drawCall fav inps s).1 k) ∧
      (ks₀ ++ (drawCall fav inps s).2).Nodup := by
  intro inps
  induction inps with
  | nil =>
    intro s ks₀ hval hinv hnd
    exact ⟨by simpa [drawCall] using hinv, by simpa [drawCall] using hnd⟩
  | cons inp rest ih =>
    intro s ks₀ hval hinv hnd
    by_cases hact : (drawStep fav inp s).2 = .noAction
    · have hs1 : (drawStep fav inp s).1 = s := by
        rcases drawStep_cases fav inp s with hna | ⟨k, -, -, hbr⟩
        · rw [hna]
        · rcases hbr with ⟨-, heq⟩ | ⟨q, -, -, heq⟩ <;> rw [heq] at hact <;> simp at hact
      have hcall : drawCall fav (inp :: rest) s = drawCall fav rest s := by
        simp only [drawCall]
        rw [hact, hs1]
      rw [hcall]
      exact ih s ks₀ (fun i hi => hval i (List.mem_cons_of_mem _ hi)) hinv hnd
    · have hex : ∃ k, (drawStep fav inp s).2 = .claimed k ∨
          (drawStep fav inp s).2 = .replaced k := by
        cases ho : (drawStep fav inp s).2 with
        | noAction => exact absurd ho hact
        | claimed k => exact ⟨k, Or.inl rfl⟩
        | replaced k => exact ⟨k, Or.inr rfl⟩
      obtain ⟨k, hk⟩ := hex
      obtain ⟨hsel, hfresh, hothers, hnotcl⟩ := drawStep_claims hk
      have hkmem : k ∈ inp.idxs := selectBest_mem hsel
      have hklt : k < s.pool.length := hval inp (List.mem_cons_self inp rest) k hkmem
      have hfresh' := hfresh hklt
      have hnotin : k ∉ ks₀ := fun hin => hnotcl (hinv k hin)
      have hlen : ((drawStep fav inp s).1).pool.length = s.pool.length :=
        drawStep_pool_length fav inp s
      have hinv1 : ∀ j ∈ ks₀ ++ [k], FreshlyClaimed (drawStep fav inp s).1 j := by
        intro j hj
        rcases List.mem_append.mp hj with hj | hj
        · have hji : j ≠ k := fun hjk => hnotin (hjk ▸ hj)
          obtain ⟨p, hp, hpm⟩ := hinv j hj
          exact ⟨p, by rw [hothers j hji]; exact hp, hpm⟩
        · obtain rfl : j = k := by simpa using hj
          exact hfresh'
      have hnd1 : (ks₀ ++ [k]).Nodup := by
        rw [List.nodup_append]
        exact ⟨hnd, List.nodup_singleton k,
          fun x hx hxk => hnotin ((List.mem_singleton.mp hxk) ▸ hx)⟩
      have hval1 : ∀ inp' ∈ rest, ∀ i ∈ inp'.idxs,
          i < ((drawStep fav inp s).1).pool.length := by
        intro inp' h' i hi
        rw [hlen]
        exact hval inp' (List.mem_cons_of_mem _ h') i hi
      have hrec := ih ((drawStep fav inp s).1) (ks₀ ++ [k]) hval1 hinv1 hnd1
      have hcall : drawCall fav (inp :: rest) s =
          ((drawCall fav rest (drawStep fav inp s).1).1,
            k :: (drawCall fav rest (drawStep fav inp s).1).2) := by
        simp only [drawCall]
        rcases hk with h | h <;> rw [h]
      rw [hcall]
      have hrw : ks₀ ++ k :: (drawCall fav rest (drawStep fav inp s).1).2 =
          (ks₀ ++ [k]) ++ (drawCall fav rest (drawStep fav inp s).1).2 := by
        simp
      constructor
      · intro j hj
        exact hrec.1 j (by rw [← hrw]; simpa using hj)
      · have h2 := hrec.2
        rw [← hrw] at h2
        simpa using h2

/- ===================================================================
   Claim theorems: occupancy
   =================================================================== -/

/-- Claim C6 (corrected): no two particles created within a single
assignment (draw) call ever claim the same cell: the pool indices acted
upon across the whole call are pairwise distinct.  (The first half of the
original claim fails: during a pending takeover a cell references two
particles, see the counterexample.) -/
theorem single_call_distinct_claims (fav : Bool) (inps : List StrokeInput) (s : DrawState)
    (hval : ∀ inp ∈ inps, ∀ i ∈ inp.idxs, i < s.pool.length) :
    ((drawCall fav inps s).2).Nodup := by
  have h := drawCall_invariant fav inps s [] hval (by simp) List.nodup_nil
  simpa using h.2

theorem single_call_distinct_claims_witness :
    ((drawCall false [blackStroke, blackStroke2] ⟨[freeCell], []⟩).2).Nodup := by
  apply single_call_distinct_claims false [blackStroke, blackStroke2] ⟨[freeCell], []⟩
  intro inp hinp i hi
  have hidx : inp.idxs = List.replicate 40 0 := by
    rcases List.mem_cons.mp hinp with rfl | h
    · rfl
    · rcases List.mem_cons.mp h with rfl | h2
      · rfl
      · simp at h2
  rw [hidx] at hi
  obtain rfl := List.eq_of_mem_replicate hi
  simp

/-- Claim C6, counterexample to the claim as stated: right after a
takeover is created, the winning cell holds two distinct particle
references at once: the challenger in `occupiedBy` and the incumbent in
`pendingReplacement`. -/
theorem single_reference_cex :
    (((drawStep false blackStroke ⟨[occupiedCell], [settledIncumbent]⟩).1.pool.getD 0
        dCell).occupiedBy =
      some (challengerFor false blackStroke occupiedCell settledIncumbent 0)) ∧
    (((drawStep false blackStroke ⟨[occupiedCell], [settledIncumbent]⟩).1.pool.getD 0
        dCell).pendingReplacement = some settledIncumbent) ∧
    (challengerFor false blackStroke occupiedCell settledIncumbent 0).id ≠
      settledIncumbent.id := by
  have hsel : selectBest [occupiedCell] blackStroke.px blackStroke.py blackStroke.rgb
      blackStroke.idxs = some 0 := by
    rw [show blackStroke.idxs = List.replicate 40 0 from rfl]
    exact selectBest_replicate _ _ _ _ 40 0 (by norm_num)
  have h1 : colorDistance blackStroke.rgb (nativeRgba occupiedCell) = 0 := by
    show Real.sqrt (((0 : ℝ) - 0) ^ 2 + ((0 : ℝ) - 0) ^ 2 + ((0 : ℝ) - 0) ^ 2) = 0
    rw [show ((0 : ℝ) - 0) ^ 2 + ((0 : ℝ) - 0) ^ 2 + ((0 : ℝ) - 0) ^ 2 = 0 by norm_num,
      Real.sqrt_zero]
  have h2 : colorDistance settledIncumbent.rgb (nativeRgba occupiedCell) = 5 := by
    show Real.sqrt (((3 : ℝ) - 0) ^ 2 + ((4 : ℝ) - 0) ^ 2 + ((0 : ℝ) - 0) ^ 2) = 5
    rw [show ((3 : ℝ) - 0) ^ 2 + ((4 : ℝ) - 0) ^ 2 + ((0 : ℝ) - 0) ^ 2 = 5 ^ 2 by norm_num]
    exact Real.sqrt_sq (by norm_num)
  have he : effColor false blackStroke.favRoll occupiedCell blackStroke.rgb =
      blackStroke.rgb := by
    simp [effColor]
  have hcd : colorDistance (effColor false blackStroke.favRoll
        (([occupiedCell] : List Cell).getD 0 dCell) blackStroke.rgb)
        (nativeRgba (([occupiedCell] : List Cell).getD 0 dCell)) <
      colorDistance settledIncumbent.rgb
        (nativeRgba (([occupiedCell] : List Cell).getD 0 dCell)) * 0.9 := by
    rw [show (([occupiedCell] : List Cell).getD 0 dCell) = occupiedCell from rfl,
      he, h1, h2]
    norm_num
  have heq := @drawStep_replace_eq false blackStroke ⟨[occupiedCell], [settledIncumbent]⟩
    0 settledIncumbent rfl hsel rfl rfl hcd
  rw [heq]
  refine ⟨rfl, rfl, by decide⟩

end PixelMorph
